import Mathlib

/-!
Verification of the N/U (nominal/uncertainty) conservative error-propagation
algebra and the sequential aggregation procedure of the Hubble-concordance
repository.  The operations of `nu_algebra.py` and `hubble_analysis.py` are
embedded over exact rationals; every operation mirrors the source line for
line (the Python constructor clamps a negative uncertainty to zero, so every
operator result passes through that clamp).
-/

/-- The error taxonomy of the aggregate entry points (the Python code raises
`ValueError` with a distinct message for each of these cases). -/
inductive NUError where
  | InvalidExponent
  | LengthMismatch
  | EmptyInput
  | ZeroTotalWeight
  deriving DecidableEq, Repr

/-- An N/U value: the two attributes `n` and `u` of a Python `NU` object. -/
structure NU where
  n : ℚ
  u : ℚ
  deriving DecidableEq, Repr

/-- `NU.__init__`: stores `n` and clamps the uncertainty, `max(0.0, u)`. -/
def mkNU (n u : ℚ) : NU := ⟨n, max 0 u⟩

/-- `NU.add`: `(n1,u1) + (n2,u2) = (n1+n2, u1+u2)`. -/
def NU.add (a b : NU) : NU := mkNU (a.n + b.n) (a.u + b.u)

/-- `NU.sub`: `(n1,u1) - (n2,u2) = (n1-n2, u1+u2)`. -/
def NU.sub (a b : NU) : NU := mkNU (a.n - b.n) (a.u + b.u)

/-- `NU.mul`: `(n1,u1) * (n2,u2) = (n1*n2, |n1|*u2 + |n2|*u1)`. -/
def NU.mul (a b : NU) : NU := mkNU (a.n * b.n) (|a.n| * b.u + |b.n| * a.u)

/-- `NU.scalar`: `a * (n,u) = (a*n, |a|*u)`. -/
def NU.scalar (x : NU) (a : ℚ) : NU := mkNU (a * x.n) (|a| * x.u)

/-- `NU.affine`: `(n,u) -> (a*n + b, |a|*u)`. -/
def NU.affine (x : NU) (a b : ℚ) : NU := mkNU (a * x.n + b) (|a| * x.u)

/-- `NU.__neg__`: `self.scalar(-1)`. -/
def NU.negate (x : NU) : NU := x.scalar (-1)

/-- `NU.__abs__`: `NU(abs(self.n), self.u)`. -/
def NU.absolute (x : NU) : NU := mkNU |x.n| x.u

/-- `NU.catch`: `NU(0, abs(self.n) + self.u)`. -/
def NU.catch (x : NU) : NU := mkNU 0 (|x.n| + x.u)

/-- `NU.flip`: `NU(self.u, abs(self.n))`. -/
def NU.flip (x : NU) : NU := mkNU x.u |x.n|

/-- `NU.invariant`: `abs(self.n) + self.u`. -/
def NU.invariant (x : NU) : ℚ := |x.n| + x.u

/-- The loop body of `NU.pow`: `result = self; for _ in range(m): result =
result.mul(self)`. -/
def powIter (x : NU) : Nat → NU
  | 0 => x
  | m + 1 => (powIter x m).mul x

/-- `NU.pow`: raises on `exponent < 1`, otherwise multiplies `x` into itself
`exponent - 1` further times. -/
def NU.pow (x : NU) (exponent : ℤ) : Except NUError NU :=
  if exponent < 1 then .error .InvalidExponent
  else .ok (powIter x (exponent - 1).toNat)

/-- `cumulative_sum`: `NU(0,0)` on no arguments, otherwise the first pair with
each later pair folded in via `add`. -/
def cumulative_sum : List NU → NU
  | [] => mkNU 0 0
  | x :: xs => xs.foldl NU.add x

/-- `cumulative_product`: `NU(1,0)` on no arguments, otherwise the first pair
with each later pair folded in via `mul`. -/
def cumulative_product : List NU → NU
  | [] => mkNU 1 0
  | x :: xs => xs.foldl NU.mul x

/-- `weighted_mean`: validates emptiness, then defaults the weights to all
ones, then validates the length match and the nonzero total, then scales each
pair by its weight, cumulative-sums, and divides by the total weight. -/
def weighted_mean (nu_pairs : List NU) (weights : Option (List ℚ)) :
    Except NUError NU :=
  if nu_pairs = [] then .error .EmptyInput
  else
    let ws := weights.getD (List.replicate nu_pairs.length 1)
    if ws.length ≠ nu_pairs.length then .error .LengthMismatch
    else
      let total_weight := ws.sum
      if total_weight = 0 then .error .ZeroTotalWeight
      else
        let weighted_sum :=
          cumulative_sum ((nu_pairs.zip ws).map (fun p => p.1.scalar p.2))
        .ok (weighted_sum.scalar (1 / total_weight))

/-- `aggregate_pair` of `hubble_analysis.py`:
`((v1+v2)*0.5, (e1+e2)*0.5 + |v1-v2|*0.5)`. -/
def aggregate_pair (v1 e1 v2 e2 : ℚ) : ℚ × ℚ :=
  ((v1 + v2) * (1/2), (e1 + e2) * (1/2) + |v1 - v2| * (1/2))

/-- `aggregate_sequential`: validates equal lengths, returns `(0,0)` on empty
input, otherwise folds `aggregate_pair` over the pairs in input order starting
from the first pair. -/
def aggregate_sequential (values errors : List ℚ) : Except NUError (ℚ × ℚ) :=
  if values.length ≠ errors.length then .error .LengthMismatch
  else
    match values.zip errors with
    | [] => .ok (0, 0)
    | p :: ps => .ok (ps.foldl (fun r q => aggregate_pair r.1 r.2 q.1 q.2) p)

/-- The `overlaps` flag computed inside `calculate_tension`:
`not (min(n1+u1, n2+u2) < max(n1-u1, n2-u2))`. -/
def overlaps (n1 u1 n2 u2 : ℚ) : Bool :=
  !(decide (min (n1 + u1) (n2 + u2) < max (n1 - u1) (n2 - u2)))

example : mkNU 5 (-3) = ⟨5, 0⟩ := by norm_num [mkNU]
example : (mkNU 10 1).add (mkNU 5 (1/2)) = ⟨15, 3/2⟩ := by
  norm_num [mkNU, NU.add]
example : (mkNU 4 (1/10)).mul (mkNU 3 (2/10)) = ⟨12, 11/10⟩ := by
  norm_num [mkNU, NU.mul]
example : (mkNU 5 2).catch = ⟨0, 7⟩ := by norm_num [mkNU, NU.catch]
example : (mkNU 5 2).flip = ⟨2, 5⟩ := by norm_num [mkNU, NU.flip]
example : (mkNU 3 (1/10)).pow 2 = .ok ⟨9, 6/10⟩ := by
  norm_num [mkNU, NU.pow, powIter, NU.mul]
example : (mkNU 3 (1/10)).pow 0 = .error .InvalidExponent := by
  norm_num [NU.pow]
example :
    aggregate_sequential [674/10, 7304/100] [1/2, 104/100] =
      .ok (7022/100, 359/100) := by
  norm_num [aggregate_sequential, aggregate_pair, List.zip, abs_of_nonpos,
    abs_of_nonneg]
example : overlaps (674/10) (1/2) (7304/100) (104/100) = false := by
  norm_num [overlaps]
example :
    weighted_mean [mkNU 10 1, mkNU 12 (3/2), mkNU 11 (8/10)] none =
      .ok ⟨11, 11/10⟩ := by
  norm_num [weighted_mean, cumulative_sum, mkNU, NU.scalar, NU.add,
    List.replicate, List.zip, List.cons_ne_nil, abs_of_nonneg]

/-! ## Basic lemmas -/

lemma mkNU_n (n u : ℚ) : (mkNU n u).n = n := rfl

lemma mkNU_u (n u : ℚ) : (mkNU n u).u = max 0 u := rfl

lemma mkNU_u_nonneg (n u : ℚ) : 0 ≤ (mkNU n u).u := le_max_left 0 u

lemma mkNU_u_of_nonneg {u : ℚ} (n : ℚ) (h : 0 ≤ u) : (mkNU n u).u = u :=
  max_eq_right h

lemma powIter_u_nonneg {x : NU} (hx : 0 ≤ x.u) : ∀ m, 0 ≤ (powIter x m).u
  | 0 => hx
  | m + 1 => mkNU_u_nonneg _ _

/-! ## Claim theorems -/

/-- C1: every construction `NU(n, u)` — negative `u` silently clamped to 0,
never an error — and every operator result (add, sub, mul, scalar, affine,
negate, absolute, pow with `k ≥ 1`, catch, flip) on values with non-negative
uncertainty has a non-negative uncertainty component; `NU(5, -3).u == 0`. -/
theorem construction_and_operators_nonneg (n u a b : ℚ) (x y : NU) (k : ℤ)
    (hx : 0 ≤ x.u) (hy : 0 ≤ y.u) (hk : 1 ≤ k) :
    0 ≤ (mkNU n u).u ∧ 0 ≤ (x.add y).u ∧ 0 ≤ (x.sub y).u ∧
    0 ≤ (x.mul y).u ∧ 0 ≤ (x.scalar a).u ∧ 0 ≤ (x.affine a b).u ∧
    0 ≤ x.negate.u ∧ 0 ≤ x.absolute.u ∧
    (∀ r, x.pow k = .ok r → 0 ≤ r.u) ∧
    0 ≤ x.catch.u ∧ 0 ≤ x.flip.u ∧ (mkNU 5 (-3)).u = 0 := by
  refine ⟨mkNU_u_nonneg _ _, mkNU_u_nonneg _ _, mkNU_u_nonneg _ _,
    mkNU_u_nonneg _ _, mkNU_u_nonneg _ _, mkNU_u_nonneg _ _,
    mkNU_u_nonneg _ _, mkNU_u_nonneg _ _, ?_,
    mkNU_u_nonneg _ _, mkNU_u_nonneg _ _, by norm_num [mkNU]⟩
  intro r hr
  rw [NU.pow, if_neg (not_lt.mpr hk)] at hr
  obtain rfl : powIter x (k - 1).toNat = r := by
    simpa using hr
  exact powIter_u_nonneg hx _

/-- Witness for C1 at `n = 5`, `u = -3`, `a = 2`, `b = 3`, `x = (3, 1)`,
`y = (4, 2)`, `k = 2`. -/
theorem construction_and_operators_nonneg_witness :
    0 ≤ (mkNU 5 (-3)).u ∧ 0 ≤ ((⟨3, 1⟩ : NU).add ⟨4, 2⟩).u ∧
    0 ≤ ((⟨3, 1⟩ : NU).sub ⟨4, 2⟩).u ∧ 0 ≤ ((⟨3, 1⟩ : NU).mul ⟨4, 2⟩).u ∧
    0 ≤ ((⟨3, 1⟩ : NU).scalar 2).u ∧ 0 ≤ ((⟨3, 1⟩ : NU).affine 2 3).u ∧
    0 ≤ (⟨3, 1⟩ : NU).negate.u ∧ 0 ≤ (⟨3, 1⟩ : NU).absolute.u ∧
    (∀ r, (⟨3, 1⟩ : NU).pow 2 = .ok r → 0 ≤ r.u) ∧
    0 ≤ (⟨3, 1⟩ : NU).catch.u ∧ 0 ≤ (⟨3, 1⟩ : NU).flip.u ∧
    (mkNU 5 (-3)).u = 0 :=
  construction_and_operators_nonneg 5 (-3) 2 3 ⟨3, 1⟩ ⟨4, 2⟩ 2
    (by norm_num) (by norm_num) (by norm_num)

/-- C2: for every N/U value with `u ≥ 0`, the invariant `M(n,u) = |n| + u` is
preserved by `catch` and by `flip`. -/
theorem catch_flip_preserve_invariant (x : NU) (hx : 0 ≤ x.u) :
    x.catch.invariant = x.invariant ∧ x.flip.invariant = x.invariant := by
  have habs : (0:ℚ) ≤ |x.n| := abs_nonneg _
  constructor
  · rw [NU.catch, NU.invariant, mkNU_n, mkNU_u_of_nonneg _ (by positivity)]
    simp [NU.invariant]
  · rw [NU.flip, NU.invariant, mkNU_n, mkNU_u_of_nonneg _ habs,
      abs_of_nonneg hx, NU.invariant, add_comm]

/-- Witness for C2 at `x = (5, 2)`: catch gives `(0,7)`, flip gives `(2,5)`,
both of invariant `7`. -/
theorem catch_flip_preserve_invariant_witness :
    (⟨5, 2⟩ : NU).catch.invariant = (⟨5, 2⟩ : NU).invariant ∧
    (⟨5, 2⟩ : NU).flip.invariant = (⟨5, 2⟩ : NU).invariant :=
  catch_flip_preserve_invariant ⟨5, 2⟩ (by norm_num)

/-- C3: `aggregate_sequential` starts from the first pair and folds each later
pair in, in input order, via the combinator
`((v1+v2)/2, (e1+e2)/2 + |v1-v2|/2)`; on values `[67.4, 73.04]` and
uncertainties `[0.5, 1.04]` it returns exactly `(70.22, 3.59)`. -/
theorem aggregate_sequential_is_ordered_fold (v e : ℚ) (vs es : List ℚ)
    (h : vs.length = es.length) :
    aggregate_sequential (v :: vs) (e :: es) =
      .ok ((vs.zip es).foldl
        (fun acc p =>
          ((acc.1 + p.1) / 2, (acc.2 + p.2) / 2 + |acc.1 - p.1| / 2))
        (v, e)) ∧
    aggregate_sequential [674/10, 7304/100] [1/2, 104/100] =
      .ok (7022/100, 359/100) := by
  constructor
  · have hfun :
        (fun (r q : ℚ × ℚ) => aggregate_pair r.1 r.2 q.1 q.2) =
          fun acc p =>
            ((acc.1 + p.1) / 2, (acc.2 + p.2) / 2 + |acc.1 - p.1| / 2) := by
      funext r q
      simp only [aggregate_pair, Prod.mk.injEq]
      constructor <;> ring
    rw [aggregate_sequential, if_neg (by simp [h]), List.zip_cons_cons, hfun]
  · norm_num [aggregate_sequential, aggregate_pair, List.zip, abs_of_nonpos,
      abs_of_nonneg]

/-- Witness for C3 at the two-element Planck/SH0ES input. -/
theorem aggregate_sequential_is_ordered_fold_witness :
    aggregate_sequential ((674:ℚ)/10 :: [7304/100]) ((1:ℚ)/2 :: [104/100]) =
      .ok ((([(7304:ℚ)/100]).zip [(104:ℚ)/100]).foldl
        (fun acc p =>
          ((acc.1 + p.1) / 2, (acc.2 + p.2) / 2 + |acc.1 - p.1| / 2))
        (674/10, 1/2)) ∧
    aggregate_sequential [674/10, 7304/100] [1/2, 104/100] =
      .ok (7022/100, 359/100) :=
  aggregate_sequential_is_ordered_fold (674/10) (1/2) [7304/100] [104/100]
    (by norm_num)

lemma zip_map_scalar (xs : List NU) (ws : List ℚ) :
    (xs.zip ws).map (fun p => p.1.scalar p.2) =
      List.zipWith (fun x w => x.scalar w) xs ws := by
  rw [List.zip, List.map_zipWith]

/-- C4: on a non-empty list with matching, nonzero-total weights,
`weighted_mean` is the cumulative sum of the weight-scaled values rescaled by
the reciprocal total weight; omitted weights default to all ones. -/
theorem weighted_mean_scaled_sum (xs : List NU) (ws : List ℚ)
    (hne : xs ≠ []) (hlen : ws.length = xs.length) (hsum : ws.sum ≠ 0) :
    weighted_mean xs (some ws) =
      .ok ((cumulative_sum
        (List.zipWith (fun x w => x.scalar w) xs ws)).scalar (1 / ws.sum)) ∧
    weighted_mean xs none =
      weighted_mean xs (some (List.replicate xs.length 1)) := by
  constructor
  · rw [weighted_mean, if_neg hne]
    simp only [Option.getD_some]
    rw [if_neg (show ¬ws.length ≠ xs.length from by simp [hlen]),
      if_neg hsum, zip_map_scalar]
  · rw [weighted_mean, weighted_mean]
    rfl

/-- Witness for C4 at `xs = [(10,1), (12,3/2)]`, `ws = [2, 3]`. -/
theorem weighted_mean_scaled_sum_witness :
    weighted_mean [(⟨10, 1⟩ : NU), ⟨12, 3/2⟩] (some [2, 3]) =
      .ok ((cumulative_sum
        (List.zipWith (fun x w => x.scalar w) [(⟨10, 1⟩ : NU), ⟨12, 3/2⟩]
          [2, 3])).scalar (1 / ([(2:ℚ), 3]).sum)) ∧
    weighted_mean [(⟨10, 1⟩ : NU), ⟨12, 3/2⟩] none =
      weighted_mean [(⟨10, 1⟩ : NU), ⟨12, 3/2⟩]
        (some (List.replicate ([(⟨10, 1⟩ : NU), ⟨12, 3/2⟩]).length 1)) :=
  weighted_mean_scaled_sum [⟨10, 1⟩, ⟨12, 3/2⟩] [2, 3]
    (by simp) (by simp) (by norm_num)

/-- C5: `weighted_mean` fails with `EmptyInput` on an empty list, with
`LengthMismatch` on a weight list of the wrong length, with `ZeroTotalWeight`
on weights summing to zero, and succeeds otherwise (also with defaulted
weights); `aggregate_sequential` fails with `LengthMismatch` on different
lengths but maps empty input to `(0, 0)` without failing. -/
theorem aggregation_failure_modes (xs : List NU) (w : Option (List ℚ))
    (ws1 ws2 ws3 vs es : List ℚ) (hne : xs ≠ [])
    (h1 : ws1.length ≠ xs.length)
    (h2l : ws2.length = xs.length) (h2s : ws2.sum = 0)
    (h3l : ws3.length = xs.length) (h3s : ws3.sum ≠ 0)
    (hve : vs.length ≠ es.length) :
    weighted_mean [] w = .error .EmptyInput ∧
    weighted_mean xs (some ws1) = .error .LengthMismatch ∧
    weighted_mean xs (some ws2) = .error .ZeroTotalWeight ∧
    (∃ r, weighted_mean xs (some ws3) = .ok r) ∧
    (∃ r, weighted_mean xs none = .ok r) ∧
    aggregate_sequential vs es = .error .LengthMismatch ∧
    aggregate_sequential [] [] = .ok (0, 0) := by
  refine ⟨by rw [weighted_mean, if_pos rfl], ?_, ?_, ?_, ?_, ?_,
    by simp [aggregate_sequential]⟩
  · rw [weighted_mean, if_neg hne]
    simp only [Option.getD_some]
    rw [if_pos h1]
  · rw [weighted_mean, if_neg hne]
    simp only [Option.getD_some]
    rw [if_neg (show ¬ws2.length ≠ xs.length from by simp [h2l]), if_pos h2s]
  · rw [weighted_mean, if_neg hne]
    simp only [Option.getD_some]
    rw [if_neg (show ¬ws3.length ≠ xs.length from by simp [h3l]),
      if_neg h3s]
    exact ⟨_, rfl⟩
  · have hlen1 : ¬(List.replicate xs.length (1:ℚ)).length ≠ xs.length := by
      simp
    have hsum1 : (List.replicate xs.length (1:ℚ)).sum ≠ 0 := by
      rw [List.sum_replicate, nsmul_eq_mul, mul_one]
      have hxl : xs.length ≠ 0 := fun h => hne (List.length_eq_zero.mp h)
      exact_mod_cast hxl
    rw [weighted_mean, if_neg hne]
    simp only [Option.getD_none]
    rw [if_neg hlen1, if_neg hsum1]
    exact ⟨_, rfl⟩
  · rw [aggregate_sequential, if_pos hve]

/-- Witness for C5 at `xs = [(1,0)]`, mismatching weights `[]`, zero-sum
weights `[0]`, good weights `[1]`, and mismatching sequences `[1]` / `[]`. -/
theorem aggregation_failure_modes_witness :
    weighted_mean [] (none : Option (List ℚ)) = .error .EmptyInput ∧
    weighted_mean [(⟨1, 0⟩ : NU)] (some []) = .error .LengthMismatch ∧
    weighted_mean [(⟨1, 0⟩ : NU)] (some [0]) = .error .ZeroTotalWeight ∧
    (∃ r, weighted_mean [(⟨1, 0⟩ : NU)] (some [1]) = .ok r) ∧
    (∃ r, weighted_mean [(⟨1, 0⟩ : NU)] none = .ok r) ∧
    aggregate_sequential [1] [] = .error .LengthMismatch ∧
    aggregate_sequential [] [] = .ok (0, 0) :=
  aggregation_failure_modes [(⟨1, 0⟩ : NU)] (none : Option (List ℚ))
    [] [0] [1] [1] []
    (by simp) (by simp) (by simp) (by simp) (by simp) (by norm_num) (by simp)

lemma foldl_mul_replicate (x a : NU) (m : ℕ) :
    List.foldl NU.mul a (List.replicate m x) = (fun b => b.mul x)^[m] a := by
  induction m generalizing a with
  | zero => rfl
  | succ m ih =>
      rw [List.replicate_succ, List.foldl_cons, ih,
        Function.iterate_succ_apply]

lemma powIter_eq_iterate (x : NU) (m : ℕ) :
    powIter x m = (fun b => b.mul x)^[m] x := by
  induction m with
  | zero => rfl
  | succ m ih =>
      show (powIter x m).mul x = _
      rw [ih, Function.iterate_succ_apply']

/-- C6: `pow(x, k)` fails with `InvalidExponent` exactly when `k < 1` — in
particular at `k = 0` and `k = -1` — and for `k ≥ 1` it returns the cumulative
`mul`-product of `k` copies of `x`. -/
theorem pow_invalid_iff_and_replicate_product (x : NU) (k : ℤ) (hk : 1 ≤ k) :
    (∀ j : ℤ, x.pow j = .error .InvalidExponent ↔ j < 1) ∧
    x.pow 0 = .error .InvalidExponent ∧
    x.pow (-1) = .error .InvalidExponent ∧
    x.pow k = .ok (cumulative_product (List.replicate k.toNat x)) := by
  have hiff : ∀ j : ℤ, x.pow j = .error .InvalidExponent ↔ j < 1 := by
    intro j
    rw [NU.pow]
    split_ifs with hj
    · simp [hj]
    · simp [hj]
  refine ⟨hiff, (hiff 0).mpr (by norm_num), (hiff (-1)).mpr (by norm_num), ?_⟩
  rw [NU.pow, if_neg (not_lt.mpr hk)]
  have hsplit : k.toNat = (k - 1).toNat + 1 := by omega
  rw [hsplit, List.replicate_succ, cumulative_product,
    foldl_mul_replicate, powIter_eq_iterate]

/-- Witness for C6 at `x = (2, 1)`, `k = 2`. -/
theorem pow_invalid_iff_and_replicate_product_witness :
    (∀ j : ℤ, (⟨2, 1⟩ : NU).pow j = .error .InvalidExponent ↔ j < 1) ∧
    (⟨2, 1⟩ : NU).pow 0 = .error .InvalidExponent ∧
    (⟨2, 1⟩ : NU).pow (-1) = .error .InvalidExponent ∧
    (⟨2, 1⟩ : NU).pow 2 =
      .ok (cumulative_product (List.replicate (2:ℤ).toNat ⟨2, 1⟩)) :=
  pow_invalid_iff_and_replicate_product ⟨2, 1⟩ 2 (by norm_num)

/-- C7: the pairwise combinator is symmetric in its two arguments, yet the
sequential fold is order-sensitive: `[0,0,4]` and its permutation `[4,0,0]`
(all with zero uncertainties) aggregate to `(2,2)` and `(1,2)` respectively. -/
theorem aggregate_pair_symm_but_order_sensitive (v1 e1 v2 e2 : ℚ) :
    aggregate_pair v1 e1 v2 e2 = aggregate_pair v2 e2 v1 e1 ∧
    ([(4:ℚ), 0, 0]).Perm [0, 0, 4] ∧
    aggregate_sequential [0, 0, 4] [0, 0, 0] = .ok (2, 2) ∧
    aggregate_sequential [4, 0, 0] [0, 0, 0] = .ok (1, 2) ∧
    aggregate_sequential [0, 0, 4] [0, 0, 0] ≠
      aggregate_sequential [4, 0, 0] [0, 0, 0] := by
  have h1 : aggregate_sequential [(0:ℚ), 0, 4] [0, 0, 0] = .ok (2, 2) := by
    norm_num [aggregate_sequential, aggregate_pair, List.zip, abs_of_nonneg,
      abs_of_nonpos]
  have h2 : aggregate_sequential [(4:ℚ), 0, 0] [0, 0, 0] = .ok (1, 2) := by
    norm_num [aggregate_sequential, aggregate_pair, List.zip, abs_of_nonneg,
      abs_of_nonpos]
  refine ⟨?_, ?_, h1, h2, ?_⟩
  · simp only [aggregate_pair, Prod.mk.injEq]
    rw [abs_sub_comm]
    constructor <;> ring
  · exact (List.Perm.swap 0 4 [0]).trans (List.Perm.cons 0 (.swap 0 4 []))
  · rw [h1, h2]
    intro h
    have := Except.ok.inj h
    have h22 : (2:ℚ) = 1 := congrArg Prod.fst this
    norm_num at h22

/-- C8: the `overlaps` flag is `not(min(n1+u1, n2+u2) < max(n1-u1, n2-u2))`,
which for non-negative uncertainties holds exactly when the closed intervals
`[n1-u1, n1+u1]` and `[n2-u2, n2+u2]` intersect; at the Planck/SH0ES pair it
is `false`. -/
theorem overlaps_iff_intervals_intersect (n1 u1 n2 u2 : ℚ)
    (h1 : 0 ≤ u1) (h2 : 0 ≤ u2) :
    (overlaps n1 u1 n2 u2 =
      !(decide (min (n1 + u1) (n2 + u2) < max (n1 - u1) (n2 - u2)))) ∧
    (overlaps n1 u1 n2 u2 = true ↔
      (Set.Icc (n1 - u1) (n1 + u1) ∩ Set.Icc (n2 - u2) (n2 + u2)).Nonempty) ∧
    overlaps (674/10) (1/2) (7304/100) (104/100) = false := by
  refine ⟨rfl, ?_, by norm_num [overlaps]⟩
  rw [Set.Icc_inter_Icc, Set.nonempty_Icc]
  simp only [overlaps, Bool.not_eq_true', decide_eq_false_iff_not, not_lt,
    max_le_iff, le_min_iff]

/-- Witness for C8 at the Planck 2018 and SH0ES 2022 measurements. -/
theorem overlaps_iff_intervals_intersect_witness :
    (overlaps (674/10) (1/2) (7304/100) (104/100) =
      !(decide (min ((674:ℚ)/10 + 1/2) (7304/100 + 104/100) <
        max ((674:ℚ)/10 - 1/2) (7304/100 - 104/100)))) ∧
    (overlaps (674/10) (1/2) (7304/100) (104/100) = true ↔
      (Set.Icc ((674:ℚ)/10 - 1/2) ((674:ℚ)/10 + 1/2) ∩
        Set.Icc ((7304:ℚ)/100 - 104/100) ((7304:ℚ)/100 + 104/100)).Nonempty) ∧
    overlaps (674/10) (1/2) (7304/100) (104/100) = false :=
  overlaps_iff_intervals_intersect (674/10) (1/2) (7304/100) (104/100)
    (by norm_num) (by norm_num)

lemma mkNU_zero_add {y : NU} (hy : 0 ≤ y.u) : (mkNU 0 0).add y = y := by
  cases y with
  | mk n u =>
      simp only [NU.add, mkNU, max_self, zero_add, NU.mk.injEq, true_and]
      exact max_eq_right hy

lemma mkNU_one_mul {y : NU} (hy : 0 ≤ y.u) : (mkNU 1 0).mul y = y := by
  cases y with
  | mk n u =>
      simp only [NU.mul, mkNU, max_self, one_mul, abs_one, mul_zero,
        add_zero, NU.mk.injEq, true_and]
      exact max_eq_right hy

/-- C9: `cumulative_sum` is the left fold of `add` from `NU(0,0)` (its empty
result), `cumulative_product` the left fold of `mul` from `NU(1,0)`, and
`NU(0,0)` is a right identity for `add` on every value with `u ≥ 0`. -/
theorem cumulative_fold_and_identities (xs : List NU) (x : NU)
    (hxs : ∀ y ∈ xs, 0 ≤ y.u) (hx : 0 ≤ x.u) :
    cumulative_sum xs = xs.foldl NU.add (mkNU 0 0) ∧
    cumulative_product xs = xs.foldl NU.mul (mkNU 1 0) ∧
    cumulative_sum [] = mkNU 0 0 ∧
    cumulative_product [] = mkNU 1 0 ∧
    x.add (mkNU 0 0) = x := by
  refine ⟨?_, ?_, rfl, rfl, ?_⟩
  · cases xs with
    | nil => rfl
    | cons y ys =>
        rw [cumulative_sum, List.foldl_cons,
          mkNU_zero_add (hxs y (List.mem_cons_self y ys))]
  · cases xs with
    | nil => rfl
    | cons y ys =>
        rw [cumulative_product, List.foldl_cons,
          mkNU_one_mul (hxs y (List.mem_cons_self y ys))]
  · cases x with
    | mk n u =>
        simp only [NU.add, mkNU, max_self, add_zero, NU.mk.injEq, true_and]
        exact max_eq_right hx

/-- Witness for C9 at `xs = [(2, 1), (3, 2)]` and `x = (5, 2)`. -/
theorem cumulative_fold_and_identities_witness :
    cumulative_sum [(⟨2, 1⟩ : NU), ⟨3, 2⟩] =
      ([(⟨2, 1⟩ : NU), ⟨3, 2⟩]).foldl NU.add (mkNU 0 0) ∧
    cumulative_product [(⟨2, 1⟩ : NU), ⟨3, 2⟩] =
      ([(⟨2, 1⟩ : NU), ⟨3, 2⟩]).foldl NU.mul (mkNU 1 0) ∧
    cumulative_sum [] = mkNU 0 0 ∧
    cumulative_product [] = mkNU 1 0 ∧
    (⟨5, 2⟩ : NU).add (mkNU 0 0) = ⟨5, 2⟩ :=
  cumulative_fold_and_identities [⟨2, 1⟩, ⟨3, 2⟩] ⟨5, 2⟩
    (by
      intro y hy
      fin_cases hy <;> norm_num) (by norm_num)

/-- C10: for every value with `u ≥ 0`, `flip` applied twice yields
`absolute`, i.e. `(|n|, u)`; `flip` is an involution exactly on values with
non-negative nominal component. -/
theorem flip_flip_eq_absolute (x : NU) (hx : 0 ≤ x.u) :
    x.flip.flip = x.absolute ∧ (x.flip.flip = x ↔ 0 ≤ x.n) := by
  cases x with
  | mk n u =>
      have hu : (0:ℚ) ≤ u := hx
      have hff : (NU.mk n u).flip.flip = ⟨|n|, u⟩ := by
        simp only [NU.flip, mkNU, NU.mk.injEq]
        constructor
        · exact max_eq_right (abs_nonneg n)
        · rw [abs_of_nonneg hu]
          exact max_eq_right hu
      refine ⟨?_, ?_⟩
      · rw [hff]
        simp only [NU.absolute, mkNU, NU.mk.injEq, true_and]
        exact (max_eq_right hu).symm
      · rw [hff]
        simp only [NU.mk.injEq, and_true]
        exact abs_eq_self

/-- Witness for C10 at `x = (-5, 2)`: the double flip gives `(5, 2)`, the
absolute value, and the involution test fails there since `-5 < 0`. -/
theorem flip_flip_eq_absolute_witness :
    (⟨-5, 2⟩ : NU).flip.flip = (⟨-5, 2⟩ : NU).absolute ∧
    ((⟨-5, 2⟩ : NU).flip.flip = ⟨-5, 2⟩ ↔ 0 ≤ ((⟨-5, 2⟩ : NU)).n) :=
  flip_flip_eq_absolute ⟨-5, 2⟩ (by norm_num)
